import Mathlib

/-!
Verification of the network monitoring script (`network_monitor.py`).

The script shells out to the platform `ping` binary via `subprocess.run`.
We embed each Python function as a Lean function over an explicit
`RunOutcome` describing what the subprocess invocation did, so that the
pure decision logic of the script (return-code interpretation, output
parsing, per-host result assembly, loop timing) is captured exactly.
-/

namespace NetworkMonitor

/-- Outcome of one `subprocess.run(["ping", param, "1", host], ...)` call:
either the process completed with a return code and captured stdout,
or `subprocess.TimeoutExpired` was raised, or some other exception
(missing binary, permission error, resource exhaustion, ...) was raised. -/
inductive RunOutcome where
  | completed (returncode : Int) (stdout : String)
  | timedOut
  | raised
deriving DecidableEq

/-- Embedding of `ping_host` (lines 14-31): returns `result.returncode == 0`
on a completed run, and `False` on `subprocess.TimeoutExpired` or any other
exception.  It is a total function: no outcome makes it raise. -/
def ping_host : RunOutcome → Bool
  | .completed rc _ => rc == 0
  | .timedOut => false
  | .raised => false

/-- Numeric value of a decimal digit character. -/
def digitVal (c : Char) : ℕ := c.toNat - 48

/-- Value of a string of decimal digits, as Python `float`/`int` of the
matched digit run. -/
def digitsToNat (ds : List Char) : ℕ := ds.foldl (fun n c => 10 * n + digitVal c) 0

/-- Value of the fractional digit run `ds` appearing after the decimal point. -/
def fracVal (ds : List Char) : ℚ := (digitsToNat ds : ℚ) / 10 ^ ds.length

/-- Tail of the regex `time[<=](\d+(?:\.\d+)?)m?s` after the captured number:
an optional `m` followed by a mandatory `s`.  Anything else fails (in
particular a bare number with no unit suffix does not match). -/
def finishUnit (v : ℚ) : List Char → Option ℚ
  | 'm' :: 's' :: _ => some v
  | 's' :: _ => some v
  | _ => none

/-- Continuation after the integer digit run `\d+` has matched with value
`v`: the optional fractional group `(?:\.\d+)?` (again a maximal digit run),
then the unit suffix.  A `.` followed by no digit makes the optional group
match empty, and `m?s` then fails on the `.` itself. -/
def afterNumber (v : ℚ) : List Char → Option ℚ
  | '.' :: cs2 =>
      let d2 := cs2.takeWhile Char.isDigit
      if d2.isEmpty then none
      else finishUnit (v + fracVal d2) (cs2.dropWhile Char.isDigit)
  | rest => finishUnit v rest

/-- Matching of `(\d+(?:\.\d+)?)m?s` at the start of `cs`.  Python's greedy
matching of `\d+` is equivalent to taking the maximal digit run: dropping
digits from the run leaves a digit at the front of the residual, which none
of `\.\d+`, `m?`, `s` can consume, so backtracking into the run never
succeeds; likewise for the fractional run. -/
def matchNumber (cs : List Char) : Option ℚ :=
  let d1 := cs.takeWhile Char.isDigit
  if d1.isEmpty then none
  else afterNumber (digitsToNat d1 : ℚ) (cs.dropWhile Char.isDigit)

/-- Matching of the full pattern `time[<=](\d+(?:\.\d+)?)m?s` anchored at the
start of `cs`. -/
def matchTimeAt (cs : List Char) : Option ℚ :=
  match cs with
  | c1 :: c2 :: c3 :: c4 :: c5 :: rest =>
      if c1 == 't' && c2 == 'i' && c3 == 'm' && c4 == 'e' && (c5 == '<' || c5 == '=') then
        matchNumber rest
      else none
  | _ => none

/-- Embedding of `re.search(r'time[<=](\d+(?:\.\d+)?)m?s', output)`:
the leftmost position at which the pattern matches, returning the captured
number's value. -/
def searchTime : List Char → Option ℚ
  | [] => none
  | c :: rest =>
      match matchTimeAt (c :: rest) with
      | some v => some v
      | none => searchTime rest

/-- Boolean list-prefix test used by the substring test below. -/
def isPrefixList : List Char → List Char → Bool
  | [], _ => true
  | _ :: _, [] => false
  | a :: as, b :: bs => a == b && isPrefixList as bs

/-- Embedding of Python's substring test `needle in hay`. -/
def containsSubstr (needle : List Char) : List Char → Bool
  | [] => isPrefixList needle []
  | c :: t => isPrefixList needle (c :: t) || containsSubstr needle t

/-- The characters of the guard string `"time="` (line 45). -/
def timeEqChars : List Char := ['t', 'i', 'm', 'e', '=']

/-- Embedding of `get_response_time` (lines 33-53): on a completed run with
return code 0, if `"time="` occurs in the stdout, apply the regex search and
return the captured value as a float; every other path returns `None` (the
`except Exception` clause covers `TimeoutExpired` and all other errors). -/
def get_response_time (o : RunOutcome) : Option ℚ :=
  match o with
  | .completed rc out =>
      if rc == 0 then
        if containsSubstr timeEqChars out.data then searchTime out.data
        else none
      else none
  | .timedOut => none
  | .raised => none

/-- The fixed anchor list of `check_internet_connection` (line 59). -/
def test_hosts : List String := ["8.8.8.8", "1.1.1.1", "google.com"]

/-- The `for host in test_hosts` loop of `check_internet_connection`
(lines 61-64), over an environment `env` assigning each anchor its ping
outcome: return `True` at the first reachable anchor, else `False` after
the list is exhausted. -/
def firstReachable (env : String → RunOutcome) : List String → Bool
  | [] => false
  | h :: t => if ping_host (env h) then true else firstReachable env t

/-- Embedding of `check_internet_connection` (lines 55-64). -/
def check_internet_connection (env : String → RunOutcome) : Bool :=
  firstReachable env test_hosts

/-- Instrumented version of the anchor loop recording which anchors were
actually pinged, in order, to express the short-circuit behaviour. -/
def firstReachableProbed (env : String → RunOutcome) : List String → Bool × List String
  | [] => (false, [])
  | h :: t =>
      if ping_host (env h) then (true, [h])
      else
        let r := firstReachableProbed env t
        (r.1, h :: r.2)

/-- `check_internet_connection` together with the list of anchors probed. -/
def check_internet_probed (env : String → RunOutcome) : Bool × List String :=
  firstReachableProbed env test_hosts

/-- Per-host result of one round, as the data model's ProbeResult:
`latency_ms` is present exactly when the status message includes the
`(<value>ms)` suffix. -/
structure ProbeResult where
  host : String
  reachable : Bool
  latency_ms : Option ℚ
deriving DecidableEq

/-- Python truthiness of the `response_time` value at line 107 / 146:
`None` is falsy and the float `0.0` is falsy; any other float is truthy. -/
def truthyFloat : Option ℚ → Bool
  | none => false
  | some v => v != 0

/-- Per-host body of the loops in `monitor_hosts` (lines 104-118) and
`single_check` (lines 143-151): first `ping_host` runs (outcome `o1`); if it
returns `True`, `get_response_time` runs a second ping (outcome `o2`) and the
latency is reported only when `if response_time:` is truthy; otherwise the
host is reported unreachable with no latency. -/
def monitorHostResult (host : String) (o1 o2 : RunOutcome) : ProbeResult :=
  if ping_host o1 then
    let rt := get_response_time o2
    if truthyFloat rt then ⟨host, true, rt⟩
    else ⟨host, true, none⟩
  else ⟨host, false, none⟩

/-- Observable events of a round, for trace statements: one internet
connectivity check, one probe result per host, and sleeping. -/
inductive Event where
  | internetCheck (online : Bool)
  | hostProbe (r : ProbeResult)
  | sleep (seconds : ℚ)
deriving DecidableEq

/-- Whether an event is the internet connectivity check. -/
def Event.isInternetCheck : Event → Bool
  | .internetCheck _ => true
  | _ => false

/-- Whether an event is a sleep. -/
def Event.isSleep : Event → Bool
  | .sleep _ => true
  | _ => false

/-- The probed host of a host-probe event. -/
def Event.probedHost : Event → Option String
  | .hostProbe r => some r.host
  | _ => none

/-- Embedding of `single_check` (lines 128-151) as its event trace: one call
to `check_internet_connection` (anchor outcomes `envA`), then one pass over
`hosts` in list order (first-ping outcomes `env1`, second-ping outcomes
`env2`); the function body has no loop around this and no `time.sleep`. -/
def single_check (envA env1 env2 : String → RunOutcome) (hosts : List String) :
    List Event :=
  Event.internetCheck (check_internet_connection envA)
    :: hosts.map (fun h => Event.hostProbe (monitorHostResult h (env1 h) (env2 h)))

/-- Timing model of the `while True` loop of `monitor_hosts` (lines 89-121):
`durations n` is the wall-clock time of round `n`'s body (connectivity check,
host probes, printing); after the body, the loop executes
`time.sleep(interval)` unconditionally, so round `n+1` starts a full
`interval` after round `n`'s body finished. -/
def roundStart (durations : ℕ → ℚ) (interval s0 : ℚ) : ℕ → ℚ
  | 0 => s0
  | n + 1 => roundStart durations interval s0 n + durations n + interval

/-- Modelled from the spec: the next-round start time prescribed by §4.3
step 6 — sleep only until `interval_seconds` has elapsed since the round's
start timestamp, starting immediately when the round ran longer than the
interval. -/
def specNextRoundStart (start duration interval : ℚ) : ℚ :=
  start + max interval duration

/-- The ping command built at lines 19-22 / 37-38: count parameter `-n` on
Windows, `-c` otherwise, with count argument `"1"`. -/
def pingParam (windows : Bool) : String :=
  if windows then "-n" else "-c"

/-- The argument list `["ping", param, "1", host]`. -/
def pingCommand (windows : Bool) (host : String) : List String :=
  ["ping", pingParam windows, "1", host]

/-- Modelled from the spec: number of ICMP echo requests a single
`ping <param> <count> <host>` invocation sends — the numeric value of its
count argument (the external ping facility's semantics; the script itself
only builds the argument list). -/
def commandEchoRequests (cmd : List String) : ℕ :=
  match cmd with
  | _ :: _ :: count :: _ => digitsToNat count.data
  | _ => 0

/-- The subprocess invocations issued for one host by the per-host body of
`monitor_hosts` / `single_check`: one ping by `ping_host` (outcome `o1`),
plus a second ping by `get_response_time` when the first reported success. -/
def hostProbeCommands (windows : Bool) (host : String) (o1 : RunOutcome) :
    List (List String) :=
  if ping_host o1 then [pingCommand windows host, pingCommand windows host]
  else [pingCommand windows host]

/-- Total ICMP echo requests sent to `host` by one per-host probe. -/
def hostEchoRequests (windows : Bool) (host : String) (o1 : RunOutcome) : ℕ :=
  ((hostProbeCommands windows host o1).map commandEchoRequests).sum

/-- Timing model of the `for host in hosts` loop (lines 104-118): probes run
one after another, each iteration advancing the clock by that host's probe
duration `d h` before the next iteration begins. -/
def roundEnd (d : String → ℚ) : List String → ℚ → ℚ
  | [], t => t
  | h :: rest, t => roundEnd d rest (t + d h)

/-! ## Helper lemmas -/

theorem firstReachable_eq_any (env : String → RunOutcome) (l : List String) :
    firstReachable env l = l.any (fun h => ping_host (env h)) := by
  induction l with
  | nil => rfl
  | cons h t ih =>
      by_cases hp : ping_host (env h) <;> simp [firstReachable, hp, ih]

theorem firstReachableProbed_fst (env : String → RunOutcome) (l : List String) :
    (firstReachableProbed env l).1 = firstReachable env l := by
  induction l with
  | nil => rfl
  | cons h t ih =>
      by_cases hp : ping_host (env h) <;>
        simp [firstReachableProbed, firstReachable, hp, ih]

theorem firstReachableProbed_snd (env : String → RunOutcome) (l : List String) :
    (firstReachableProbed env l).2
      = l.takeWhile (fun h => !ping_host (env h))
        ++ (l.dropWhile (fun h => !ping_host (env h))).take 1 := by
  induction l with
  | nil => rfl
  | cons h t ih =>
      by_cases hp : ping_host (env h) <;>
        simp [firstReachableProbed, List.takeWhile_cons, List.dropWhile_cons, hp, ih]

theorem isPrefixList_append (l r : List Char) : isPrefixList l (l ++ r) = true := by
  induction l with
  | nil => rfl
  | cons a as ih => simp [isPrefixList, ih]

theorem containsSubstr_self_append (needle r : List Char) :
    containsSubstr needle (needle ++ r) = true := by
  cases needle with
  | nil =>
      cases r with
      | nil => rfl
      | cons c t => simp [containsSubstr, isPrefixList]
  | cons a as =>
      have h := isPrefixList_append (a :: as) r
      simp only [List.cons_append] at h ⊢
      simp [containsSubstr, h]

theorem takeWhile_append_all (p : Char → Bool) (l r : List Char)
    (hl : ∀ c ∈ l, p c = true) (hr : ∀ c, r.head? = some c → p c = false) :
    (l ++ r).takeWhile p = l := by
  induction l with
  | nil =>
      cases r with
      | nil => rfl
      | cons c t => simp [List.takeWhile_cons, hr c rfl]
  | cons a as ih =>
      have ha : p a = true := hl a (by simp)
      simp only [List.cons_append, List.takeWhile_cons, ha, if_true]
      rw [ih (fun c hc => hl c (by simp [hc]))]

theorem dropWhile_append_all (p : Char → Bool) (l r : List Char)
    (hl : ∀ c ∈ l, p c = true) (hr : ∀ c, r.head? = some c → p c = false) :
    (l ++ r).dropWhile p = r := by
  induction l with
  | nil =>
      cases r with
      | nil => rfl
      | cons c t => simp [List.dropWhile_cons, hr c rfl]
  | cons a as ih =>
      have ha : p a = true := hl a (by simp)
      simp only [List.cons_append, List.dropWhile_cons, ha, if_true]
      exact ih (fun c hc => hl c (by simp [hc]))

theorem digit_beq_t_false (c : Char) (h : c.isDigit = true) : (c == 't') = false := by
  cases hb : (c == 't') with
  | false => rfl
  | true =>
      rw [eq_of_beq hb] at h
      exact absurd h (by decide)

theorem matchTimeAt_none_of_head (c : Char) (t : List Char)
    (hc : (c == 't') = false) : matchTimeAt (c :: t) = none := by
  cases t with
  | nil => rfl
  | cons c2 t2 =>
      cases t2 with
      | nil => rfl
      | cons c3 t3 =>
          cases t3 with
          | nil => rfl
          | cons c4 t4 =>
              cases t4 with
              | nil => rfl
              | cons c5 t5 => simp [matchTimeAt, hc]

theorem searchTime_none_of_no_t (l : List Char)
    (h : ∀ c ∈ l, (c == 't') = false) : searchTime l = none := by
  induction l with
  | nil => rfl
  | cons c t ih =>
      have h1 : matchTimeAt (c :: t) = none :=
        matchTimeAt_none_of_head c t (h c (by simp))
      have h2 : searchTime t = none := ih (fun x hx => h x (by simp [hx]))
      simp [searchTime, h1, h2]

theorem searchTime_cons (c : Char) (rest : List Char) :
    searchTime (c :: rest)
      = match matchTimeAt (c :: rest) with
        | some v => some v
        | none => searchTime rest := rfl

theorem searchTime_timeEq (rest : List Char) (v : ℚ)
    (h : matchNumber rest = some v) :
    searchTime (timeEqChars ++ rest) = some v := by
  show searchTime ('t' :: 'i' :: 'm' :: 'e' :: '=' :: rest) = some v
  simp [searchTime, matchTimeAt, h]

theorem matchNumber_digits_units (ds rest : List Char) (hds : ds ≠ [])
    (hd : ∀ c ∈ ds, c.isDigit = true)
    (hr : ∀ c, rest.head? = some c → c.isDigit = false) :
    matchNumber (ds ++ rest) = afterNumber (digitsToNat ds : ℚ) rest := by
  unfold matchNumber
  rw [takeWhile_append_all _ _ _ hd hr, dropWhile_append_all _ _ _ hd hr]
  simp [List.isEmpty_iff, hds]

theorem matchNumber_digits_none (ds : List Char)
    (hd : ∀ c ∈ ds, c.isDigit = true) : matchNumber ds = none := by
  cases hds : ds.isEmpty with
  | true => simp [matchNumber, List.takeWhile, List.isEmpty_iff.mp hds]
  | false =>
      have hne : ds ≠ [] := by
        intro h
        rw [h] at hds
        exact absurd hds (by decide)
      have h := matchNumber_digits_units ds [] hne hd (by intro c hc; simp at hc)
      rw [List.append_nil] at h
      rw [h]
      rfl

theorem matchNumber_frac (ds fs rest : List Char) (hds : ds ≠ []) (hfs : fs ≠ [])
    (hd : ∀ c ∈ ds, c.isDigit = true) (hf : ∀ c ∈ fs, c.isDigit = true)
    (hr : ∀ c, rest.head? = some c → c.isDigit = false) :
    matchNumber (ds ++ ('.' :: (fs ++ rest)))
      = finishUnit ((digitsToNat ds : ℚ) + fracVal fs) rest := by
  have hdot : ∀ c, ('.' :: (fs ++ rest)).head? = some c → c.isDigit = false := by
    intro c hc
    simp only [List.head?_cons, Option.some.injEq] at hc
    rw [← hc]
    rfl
  rw [matchNumber_digits_units ds ('.' :: (fs ++ rest)) hds hd hdot]
  show afterNumber (digitsToNat ds : ℚ) ('.' :: (fs ++ rest))
      = finishUnit ((digitsToNat ds : ℚ) + fracVal fs) rest
  simp only [afterNumber]
  rw [takeWhile_append_all _ _ _ hf hr, dropWhile_append_all _ _ _ hf hr]
  simp [List.isEmpty_iff, hfs]

theorem get_response_time_completed_zero (L : List Char) :
    get_response_time (.completed 0 (String.mk L))
      = if containsSubstr timeEqChars L then searchTime L else none := rfl

theorem monitorHostResult_host (h : String) (o1 o2 : RunOutcome) :
    (monitorHostResult h o1 o2).host = h := by
  unfold monitorHostResult
  by_cases hp : ping_host o1
  · by_cases ht : truthyFloat (get_response_time o2) <;> simp [hp, ht]
  · simp [hp]

theorem countP_internetCheck_map (f : String → ProbeResult) (l : List String) :
    (l.map (fun h => Event.hostProbe (f h))).countP Event.isInternetCheck = 0 := by
  induction l with
  | nil => rfl
  | cons h t ih => simp [List.countP_cons, Event.isInternetCheck, ih]

theorem countP_sleep_map (f : String → ProbeResult) (l : List String) :
    (l.map (fun h => Event.hostProbe (f h))).countP Event.isSleep = 0 := by
  induction l with
  | nil => rfl
  | cons h t ih => simp [List.countP_cons, Event.isSleep, ih]

theorem filterMap_probedHost_map (env1 env2 : String → RunOutcome)
    (l : List String) :
    (l.map (fun h => Event.hostProbe (monitorHostResult h (env1 h) (env2 h)))).filterMap
        Event.probedHost = l := by
  induction l with
  | nil => rfl
  | cons h t ih =>
      simp [List.filterMap_cons, Event.probedHost, monitorHostResult_host, ih]

/-! ## Claims -/

/-- C1: for every host and every failure of the underlying ping facility
(timeout expiry, non-zero exit, any raised exception such as a missing
binary or permission error), `ping_host` returns `false`; being a total
function of the outcome, it never propagates an error, so no single bad
host can abort a round. -/
theorem ping_host_failure_is_false (o : RunOutcome)
    (h : o = .timedOut ∨ o = .raised ∨ ∃ rc out, o = .completed rc out ∧ rc ≠ 0) :
    ping_host o = false := by
  rcases h with h | h | ⟨rc, out, h, hrc⟩ <;> subst h <;> simp [ping_host]
  exact hrc

/-- Witness for C1 at the concrete outcome of a non-zero exit code. -/
theorem ping_host_failure_is_false_witness :
    ((RunOutcome.completed 1 "" = .timedOut ∨ RunOutcome.completed 1 "" = .raised
        ∨ ∃ rc out, RunOutcome.completed 1 "" = .completed rc out ∧ rc ≠ 0))
      ∧ ping_host (.completed 1 "") = false :=
  ⟨Or.inr (Or.inr ⟨1, "", rfl, by decide⟩),
    ping_host_failure_is_false (.completed 1 "")
      (Or.inr (Or.inr ⟨1, "", rfl, by decide⟩))⟩

/-- C2: `check_internet_connection` probes the fixed anchors
`8.8.8.8`, `1.1.1.1`, `google.com` in that order, returns `true` iff some
anchor is reachable, `false` iff all are unreachable, and stops at the first
reachable anchor: the probed anchors are exactly the unreachable prefix
followed by the first reachable anchor (or the whole list when none is). -/
theorem check_internet_connection_correct (env : String → RunOutcome) :
    check_internet_connection env = test_hosts.any (fun h => ping_host (env h))
    ∧ (check_internet_connection env = false
        ↔ ∀ h ∈ test_hosts, ping_host (env h) = false)
    ∧ (check_internet_probed env).1 = check_internet_connection env
    ∧ (check_internet_probed env).2
        = test_hosts.takeWhile (fun h => !ping_host (env h))
          ++ (test_hosts.dropWhile (fun h => !ping_host (env h))).take 1 := by
  refine ⟨firstReachable_eq_any env test_hosts, ?_, ?_, ?_⟩
  · rw [check_internet_connection, firstReachable_eq_any]
    simp
  · rw [check_internet_probed, check_internet_connection, firstReachableProbed_fst]
  · rw [check_internet_probed, firstReachableProbed_snd]

/-- C3: in every per-host result of a round, if `reachable` is false then no
latency value is present, for all probe outcomes. -/
theorem unreachable_has_no_latency (host : String) (o1 o2 : RunOutcome)
    (h : (monitorHostResult host o1 o2).reachable = false) :
    (monitorHostResult host o1 o2).latency_ms = none := by
  unfold monitorHostResult at h ⊢
  by_cases hp : ping_host o1
  · by_cases ht : truthyFloat (get_response_time o2) <;> simp [hp, ht] at h
  · simp [hp]

/-- Witness for C3 at a timed-out probe. -/
theorem unreachable_has_no_latency_witness :
    (monitorHostResult "10.0.0.1" .timedOut .timedOut).reachable = false
    ∧ (monitorHostResult "10.0.0.1" .timedOut .timedOut).latency_ms = none :=
  ⟨by decide, unreachable_has_no_latency "10.0.0.1" .timedOut .timedOut (by decide)⟩

/-- C4 counterexample: with a round body taking 5 and interval 60, the code
starts the next round at 65 (full sleep after the body), not at 60 as the
spec's sleep-since-round-start rule prescribes; and with a body taking 120
(longer than the interval) the next round starts at 180, not immediately. -/
theorem sleep_full_interval_counterexample :
    roundStart (fun _ => (5 : ℚ)) 60 0 1 = 65
    ∧ specNextRoundStart 0 5 60 = 60
    ∧ roundStart (fun _ => (5 : ℚ)) 60 0 1 ≠ specNextRoundStart 0 5 60
    ∧ roundStart (fun _ => (120 : ℚ)) 60 0 1 = 180
    ∧ specNextRoundStart 0 120 60 = 120 := by
  refine ⟨?_, ?_, ?_, ?_, ?_⟩ <;> norm_num [roundStart, specNextRoundStart]

/-- C4 (amended): in continuous mode the loop sleeps a full
`interval_seconds` after each round's body completes, so round `n` starts at
`s0 + n * interval + (total body time of the previous rounds)`: slow rounds
extend, not shrink, the effective gap, and a round longer than the interval
still incurs a full-interval sleep before the next round. -/
theorem roundStart_closed_form (durations : ℕ → ℚ) (interval s0 : ℚ) (n : ℕ) :
    roundStart durations interval s0 n
      = s0 + n * interval + ∑ i ∈ Finset.range n, durations i := by
  induction n with
  | zero => simp [roundStart]
  | succ n ih =>
      rw [roundStart, ih, Finset.sum_range_succ]
      push_cast
      ring

/-- C5 counterexample: probing a host that turns out reachable sends two
ICMP echo requests (one from `ping_host`, one from `get_response_time`),
not exactly one. -/
theorem two_echo_requests_counterexample :
    hostEchoRequests false "8.8.8.8" (.completed 0 "") = 2 ∧ (2 : ℕ) ≠ 1 := by
  refine ⟨?_, by decide⟩
  decide

/-- C5 (amended): each single ping invocation requests exactly one echo (its
count argument is `1`), but a full per-host probe issues one invocation
(one echo) when the host is unreachable and two invocations (two echoes)
when it is reachable, because the latency measurement is a second ping. -/
theorem echo_requests_per_probe (w : Bool) (host : String) (o1 : RunOutcome) :
    commandEchoRequests (pingCommand w host) = 1
    ∧ hostEchoRequests w host o1 = (if ping_host o1 then 2 else 1) := by
  constructor
  · rfl
  · by_cases hp : ping_host o1 <;>
      simp [hostEchoRequests, hostProbeCommands, hp, commandEchoRequests,
        pingCommand, digitsToNat, digitVal]

/-- C6 counterexample: a successful ping whose output carries the time value
with no unit suffix at all (`time=12`) is rejected by the parser — the regex
`time[<=](\d+(?:\.\d+)?)m?s` demands a final `s` — even though the suffixed
forms `time=12ms` and `time=12s` are accepted. -/
theorem no_unit_suffix_rejected :
    get_response_time (.completed 0 "time=12") = none
    ∧ get_response_time (.completed 0 "time=12ms") = some 12
    ∧ get_response_time (.completed 0 "time=12s") = some 12 :=
  ⟨by decide, by decide, by decide⟩

/-- C6 (amended): the latency parser accepts both integer and fractional
millisecond values, each with an `ms` or a bare `s` unit suffix, returning
the parsed value as a float; a time value with no unit suffix at all is not
accepted and yields no latency. -/
theorem latency_parse_units (ds fs : List Char) (hds : ds ≠ []) (hfs : fs ≠ [])
    (hd : ∀ c ∈ ds, c.isDigit = true) (hf : ∀ c ∈ fs, c.isDigit = true) :
    get_response_time (.completed 0 (String.mk (timeEqChars ++ (ds ++ ['m', 's']))))
        = some (digitsToNat ds : ℚ)
    ∧ get_response_time (.completed 0 (String.mk (timeEqChars ++ (ds ++ ['s']))))
        = some (digitsToNat ds : ℚ)
    ∧ get_response_time
          (.completed 0 (String.mk (timeEqChars ++ (ds ++ ('.' :: (fs ++ ['m', 's']))))))
        = some ((digitsToNat ds : ℚ) + fracVal fs)
    ∧ get_response_time
          (.completed 0 (String.mk (timeEqChars ++ (ds ++ ('.' :: (fs ++ ['s']))))))
        = some ((digitsToNat ds : ℚ) + fracVal fs)
    ∧ get_response_time (.completed 0 (String.mk (timeEqChars ++ ds))) = none := by
  have hms : ∀ c, (['m', 's'] : List Char).head? = some c → c.isDigit = false := by
    intro c hc
    simp only [List.head?_cons, Option.some.injEq] at hc
    rw [← hc]
    rfl
  have hs : ∀ c, (['s'] : List Char).head? = some c → c.isDigit = false := by
    intro c hc
    simp only [List.head?_cons, Option.some.injEq] at hc
    rw [← hc]
    rfl
  refine ⟨?_, ?_, ?_, ?_, ?_⟩
  · rw [get_response_time_completed_zero, if_pos (containsSubstr_self_append _ _),
      searchTime_timeEq _ _ ?h]
    case h =>
      rw [matchNumber_digits_units ds ['m', 's'] hds hd hms]
      rfl
  · rw [get_response_time_completed_zero, if_pos (containsSubstr_self_append _ _),
      searchTime_timeEq _ _ ?h]
    case h =>
      rw [matchNumber_digits_units ds ['s'] hds hd hs]
      rfl
  · rw [get_response_time_completed_zero, if_pos (containsSubstr_self_append _ _),
      searchTime_timeEq _ _ ?h]
    case h =>
      rw [matchNumber_frac ds fs ['m', 's'] hds hfs hd hf hms]
      rfl
  · rw [get_response_time_completed_zero, if_pos (containsSubstr_self_append _ _),
      searchTime_timeEq _ _ ?h]
    case h =>
      rw [matchNumber_frac ds fs ['s'] hds hfs hd hf hs]
      rfl
  · rw [get_response_time_completed_zero, if_pos (containsSubstr_self_append _ _)]
    have hnum : matchNumber ds = none := matchNumber_digits_none ds hd
    have htail : searchTime ('i' :: 'm' :: 'e' :: '=' :: ds) = none := by
      apply searchTime_none_of_no_t
      intro c hc
      simp only [List.mem_cons] at hc
      rcases hc with rfl | rfl | rfl | rfl | hc
      · rfl
      · rfl
      · rfl
      · rfl
      · exact digit_beq_t_false c (hd c hc)
    show searchTime ('t' :: 'i' :: 'm' :: 'e' :: '=' :: ds) = none
    have hhead : matchTimeAt ('t' :: 'i' :: 'm' :: 'e' :: '=' :: ds)
        = matchNumber ds := by
      simp [matchTimeAt]
    rw [searchTime_cons, hhead, hnum]
    exact htail

/-- Witness for C6 (amended) at the integer value `12` and fraction `.5`. -/
theorem latency_parse_units_witness :
    (['1', '2'] : List Char) ≠ []
    ∧ (∀ c ∈ (['1', '2'] : List Char), c.isDigit = true)
    ∧ get_response_time
          (.completed 0 (String.mk (timeEqChars ++ (['1', '2'] ++ ['m', 's']))))
        = some (digitsToNat ['1', '2'] : ℚ) :=
  ⟨by decide, by decide,
    (latency_parse_units ['1', '2'] ['5'] (by decide) (by decide)
      (by decide) (by decide)).1⟩

/-- C7: whenever the first ping reports success and the second (latency)
ping's output yields no parseable time value, the per-host result is
reachable with latency absent — a parse failure never downgrades the
reachability verdict. -/
theorem parse_failure_keeps_reachable (host : String) (o1 : RunOutcome) (out : String)
    (h1 : ping_host o1 = true)
    (h2 : get_response_time (.completed 0 out) = none) :
    monitorHostResult host o1 (.completed 0 out) = ⟨host, true, none⟩ := by
  simp [monitorHostResult, h1, h2, truthyFloat]

/-- Witness for C7: successful pings whose output has no `time=` value. -/
theorem parse_failure_keeps_reachable_witness :
    ping_host (.completed 0 "") = true
    ∧ get_response_time (.completed 0 "1 packets transmitted") = none
    ∧ monitorHostResult "8.8.8.8" (.completed 0 "")
        (.completed 0 "1 packets transmitted") = ⟨"8.8.8.8", true, none⟩ :=
  ⟨by decide, by decide,
    parse_failure_keeps_reachable "8.8.8.8" (.completed 0 "")
      "1 packets transmitted" (by decide) (by decide)⟩

/-- C8: single-round mode performs exactly one connectivity check, probes
the hosts once each in host-list order, never sleeps, and its trace has
exactly one event per host plus the connectivity check (no looping). -/
theorem single_check_trace (envA env1 env2 : String → RunOutcome)
    (hosts : List String) :
    (single_check envA env1 env2 hosts).countP Event.isInternetCheck = 1
    ∧ (single_check envA env1 env2 hosts).countP Event.isSleep = 0
    ∧ (single_check envA env1 env2 hosts).filterMap Event.probedHost = hosts
    ∧ (single_check envA env1 env2 hosts).length = hosts.length + 1 := by
  refine ⟨?_, ?_, ?_, ?_⟩
  · simp [single_check, List.countP_cons, Event.isInternetCheck,
      countP_internetCheck_map]
  · simp [single_check, List.countP_cons, Event.isSleep, countP_sleep_map]
  · simp only [single_check, List.filterMap_cons, Event.probedHost]
    exact filterMap_probedHost_map env1 env2 hosts
  · simp [single_check]

/-- C9 counterexample: two hosts whose probes each take 10 give a
sequential round of duration 20, which is not bounded by the maximum
single-probe time 10. -/
theorem sequential_round_counterexample :
    roundEnd (fun _ => (10 : ℚ)) ["a", "b"] 0 = 20
    ∧ ((["a", "b"].map (fun _ => (10 : ℚ))).foldr max 0) = 10
    ∧ ¬ roundEnd (fun _ => (10 : ℚ)) ["a", "b"] 0
        ≤ (["a", "b"].map (fun _ => (10 : ℚ))).foldr max 0 := by
  refine ⟨?_, ?_, ?_⟩ <;> norm_num [roundEnd]

/-- C9 (amended): the per-host probes of a round execute sequentially, so
the total probe time is the sum of the per-host probe times; with
nonnegative probe times it is therefore at least every single host's probe
time (hence at least their maximum), not bounded by it. -/
theorem sequential_round_duration (d : String → ℚ) (hosts : List String)
    (hpos : ∀ h ∈ hosts, 0 ≤ d h) :
    roundEnd d hosts 0 = (hosts.map d).sum
    ∧ ∀ h ∈ hosts, d h ≤ roundEnd d hosts 0 := by
  have key : ∀ (l : List String) (t : ℚ), roundEnd d l t = t + (l.map d).sum := by
    intro l
    induction l with
    | nil => intro t; simp [roundEnd]
    | cons h rest ih =>
        intro t
        rw [roundEnd, ih]
        simp [List.map_cons, List.sum_cons]
        ring
  have hsum : roundEnd d hosts 0 = (hosts.map d).sum := by
    rw [key]; ring
  refine ⟨hsum, fun h hm => ?_⟩
  rw [hsum]
  exact List.single_le_sum (by simpa using hpos) (d h) (List.mem_map_of_mem d hm)

/-- Witness for C9 (amended) with two hosts of probe time 10. -/
theorem sequential_round_duration_witness :
    (∀ h ∈ ["a", "b"], (0 : ℚ) ≤ (fun _ => (10 : ℚ)) h)
    ∧ roundEnd (fun _ => (10 : ℚ)) ["a", "b"] 0
        = ((["a", "b"].map (fun _ => (10 : ℚ))).sum) :=
  ⟨by intro h hm; norm_num,
    (sequential_round_duration (fun _ => (10 : ℚ)) ["a", "b"]
      (by intro h hm; norm_num)).1⟩

/-- C10: when the first ping succeeds and the parsed round-trip time is
exactly `0.0`, the reported status omits the latency entirely — the
`if response_time:` presence check uses numeric truthiness, and `0.0` is
falsy. -/
theorem zero_latency_omitted (host : String) (o1 o2 : RunOutcome)
    (h1 : ping_host o1 = true)
    (h2 : get_response_time o2 = some 0) :
    monitorHostResult host o1 o2 = ⟨host, true, none⟩ := by
  simp [monitorHostResult, h1, h2, truthyFloat]

/-- Witness for C10: output `time=0ms` parses to `0` and the latency is
dropped from the result. -/
theorem zero_latency_omitted_witness :
    ping_host (.completed 0 "") = true
    ∧ get_response_time (.completed 0 "time=0ms") = some 0
    ∧ monitorHostResult "192.168.1.1" (.completed 0 "")
        (.completed 0 "time=0ms") = ⟨"192.168.1.1", true, none⟩ :=
  ⟨by decide, by decide,
    zero_latency_omitted "192.168.1.1" (.completed 0 "")
      (.completed 0 "time=0ms") (by decide) (by decide)⟩

end NetworkMonitor
